import Mathlib

/-!
Verification development for the knowledge-store subsystem of the
interview-practice application.

Shallow embedding of:
 - `app/utils/vector_store.py` (`LexicalVectorStore`, `_simple_tokenize`)
 - `app/utils/embedding_store.py` (`FaissVectorStore`)
 - `app/utils/import_helpers.py` (`_read_text_document`)
 - `app/main.py` (`_get_work_history_store`, the store selector)

Modelling conventions:
 - Python floats are idealised as real numbers (`ℝ`); `math.log`,
   `math.sqrt`, `np.linalg.norm` become `Real.log` / `Real.sqrt`.
 - Python dicts whose iteration order is never observed are modelled
   either as association lists (`List (String × _)`, unique keys, first
   match wins — like `dict.get`) or, for the `df` document-frequency
   table, as a total function `String → Nat` whose support is the key
   set (a key is present iff its count is nonzero; every key ever
   written by the code has a positive count).
 - JSON values are the inductive `Json`; Python truthiness is `pyTruthy`.
 - The JSON (de)serialisation layer of persistence is assumed faithful:
   `_save`/`_load` are modelled as writing/reading structured payloads.
 - The external OpenAI embeddings API is modelled as a deterministic
   oracle `EmbedClient` (a function from text to a raw vector); the FAISS
   flat inner-product index is modelled as the list of its rows with
   exact top-k search (`faissTopK`), padding with row id `-1` exactly as
   FAISS does when fewer than `k` vectors are stored.
 - Exceptions are modelled with `Except String`; a Python method that can
   raise after partially mutating `self` returns the partial state
   alongside the `Except` value.
-/

/-! ### JSON values and Python-dict helpers -/

/-- JSON value, as produced by `json.loads`. -/
inductive Json where
  | null : Json
  | bool (b : Bool) : Json
  | num (q : ℚ) : Json
  | str (s : String) : Json
  | arr (l : List Json) : Json
  | obj (l : List (String × Json)) : Json

/-- Association-list lookup, first match wins (Python `dict.get`: keys are
unique in a dict, so first match is the match). -/
def lookupA {α : Type} (l : List (String × α)) (k : String) : Option α :=
  match l with
  | [] => none
  | p :: rest => if p.1 == k then some p.2 else lookupA rest k

/-- Python truthiness of a JSON value (`None`, `False`, `0`, `""`, `[]`,
`{}` are falsy). -/
def pyTruthy : Json → Bool
  | .null => false
  | .bool b => b
  | .num q => !(q == 0)
  | .str s => !(s == "")
  | .arr l => !l.isEmpty
  | .obj l => !l.isEmpty

/-- Python `a or b` on JSON values. -/
def pyOr (a b : Json) : Json := if pyTruthy a then a else b

/-- Python `obj.get(k)`: `None` when the key is absent. -/
def jsonGetD (fields : List (String × Json)) (k : String) : Json :=
  (lookupA fields k).getD .null

/-- Python `{**m, k: v}`: replace the value of `k` in place if present,
else append the new binding. -/
def setKey (l : List (String × Json)) (k : String) (v : Json) : List (String × Json) :=
  if l.any (fun p => p.1 == k) then l.map (fun p => if p.1 == k then (p.1, v) else p)
  else l ++ [(k, v)]

/-! ### Python string primitives (`str.split("\n\n")`, `str.strip()`) -/

/-- A Python whitespace character (`str.strip` default set). -/
def isPyWs (c : Char) : Bool :=
  decide (c = ' ') || decide (c = '\t') || decide (c = '\n') ||
  decide (c = '\x0d') || decide (c = '\x0b') || decide (c = '\x0c')

/-- Python `s.strip()`: drop leading and trailing whitespace. -/
def pyStrip (s : String) : String :=
  String.mk (((s.data.dropWhile isPyWs).reverse.dropWhile isPyWs).reverse)

/-- Python `s.split("\n\n")` on character lists: cut at each
non-overlapping, leftmost occurrence of two consecutive newlines.
`acc` is the current piece, reversed. -/
def splitNNAux : List Char → List Char → List (List Char)
  | [], acc => [acc.reverse]
  | '\n' :: '\n' :: rest, acc => acc.reverse :: splitNNAux rest []
  | c :: rest, acc => splitNNAux rest (c :: acc)

/-- Python `s.split("\n\n")`. -/
def pySplitNN (s : String) : List String :=
  (splitNNAux s.data []).map (fun l => String.mk l)

/-! ### Tokenizer (`_simple_tokenize`) -/

/-- A character kept by the tokenizer regex `[a-z0-9]` (after lowering). -/
def isTokChar (c : Char) : Bool :=
  (decide (('a' : Char) ≤ c) && decide (c ≤ ('z' : Char))) ||
  (decide (('0' : Char) ≤ c) && decide (c ≤ ('9' : Char)))

/-- Split a lowered character list into maximal runs of token characters
(the effect of `re.split(r"[^a-z0-9]+", text)` with empties dropped).
`acc` is the current run, reversed. -/
def tokenizeRuns : List Char → List Char → List (List Char)
  | [], acc => if acc.isEmpty then [] else [acc.reverse]
  | c :: cs, acc =>
    if isTokChar c then tokenizeRuns cs (c :: acc)
    else if acc.isEmpty then tokenizeRuns cs []
    else acc.reverse :: tokenizeRuns cs []

/-- `_simple_tokenize`: lowercase, split on non-alphanumeric runs, drop
empties.  (Python `str.lower` is modelled by `Char.toLower`, faithful on
the ASCII range the regex keeps.) -/
def simple_tokenize (text : String) : List String :=
  (tokenizeRuns (text.data.map Char.toLower) []).map (fun l => String.mk l)

/-! ### Term counts -/

/-- One step of building `term_counts`: `term_counts[tok] = term_counts.get(tok, 0) + 1`. -/
def bumpCount (l : List (String × Nat)) (t : String) : List (String × Nat) :=
  if l.any (fun p => p.1 == t) then l.map (fun p => if p.1 == t then (p.1, p.2 + 1) else p)
  else l ++ [(t, 1)]

/-- `term_counts` built from a token list (insertion-ordered dict of counts). -/
def countTokens (toks : List String) : List (String × Nat) :=
  toks.foldl bumpCount []

/-- `max(term_counts.values())` (0 on an empty dict; the code only takes it
on a non-empty one). -/
def maxTf (tc : List (String × Nat)) : Nat :=
  tc.foldl (fun m p => max m p.2) 0

/-! ### TF-IDF weights (real-valued layer) -/

/-- `idf.get(term, 1.0)` where `idf` is built from the `df` table:
`idf[t] = log((1 + N) / (1 + df[t])) + 1` for every key `t` of `df`.
A term is a key of `df` iff its count is nonzero (see the modelling
conventions). -/
noncomputable def idfOf (df : String → Nat) (N : Nat) (t : String) : ℝ :=
  if df t ≠ 0 then Real.log ((1 + (N : ℝ)) / (1 + (df t : ℝ))) + 1 else 1

/-- Per-document (and per-query) sparse TF-IDF vector:
`vec[term] = (0.5 + 0.5 * tf / max_tf) * idf.get(term, 1.0)`. -/
noncomputable def weighVec (df : String → Nat) (N : Nat) (tc : List (String × Nat)) :
    List (String × ℝ) :=
  tc.map (fun p => (p.1, ((0.5 : ℝ) + 0.5 * ((p.2 : ℝ) / (maxTf tc : ℝ))) * idfOf df N p.1))

/-- Sum of squared values of a sparse vector. -/
noncomputable def sumSqVals (v : List (String × ℝ)) : ℝ :=
  (v.map (fun p => p.2 * p.2)).sum

/-- Python `x or 1.0` on a float: `1.0` exactly when `x == 0.0`. -/
noncomputable def orOne (x : ℝ) : ℝ := if x = 0 then 1 else x

/-- The `(tfidf, length)` pair `_recompute_tfidf` assigns to one document
(and structurally identical to what `_tfidf_query` computes for the
query): empty token multiset gives `({}, 0.0)`; otherwise the weighted
vector and its guarded L2 norm. -/
noncomputable def tfidfDocOf (df : String → Nat) (doc_count : Nat) (text : String) :
    List (String × ℝ) × ℝ :=
  let tc := countTokens (simple_tokenize text)
  if tc.isEmpty then ([], 0)
  else
    let N := max 1 doc_count
    let vec := weighVec df N tc
    (vec, orOne (Real.sqrt (sumSqVals vec)))

/-! ### Lexical store state (`LexicalVectorStore`) -/

/-- `LexicalDoc`: stored lexical chunk with precomputed TF-IDF weights. -/
structure LexDoc where
  id : String
  text : String
  metadata : List (String × Json)
  tfidf : List (String × ℝ)
  length : ℝ

/-- In-memory state of a `LexicalVectorStore` (the `meta` dict, which only
feeds `stats()`, is omitted). -/
structure LexState where
  path : String
  docs : List LexDoc
  df : String → Nat
  doc_count : Nat

/-- A fresh store over a missing file (`__init__` without `_load`). -/
def emptyLex (path : String) : LexState :=
  { path := path, docs := [], df := fun _ => 0, doc_count := 0 }

/-- Per-document step of `_recompute_tfidf`. -/
noncomputable def recomputeDoc (df : String → Nat) (doc_count : Nat) (d : LexDoc) : LexDoc :=
  let p := tfidfDocOf df doc_count d.text
  { d with tfidf := p.1, length := p.2 }

/-- `_recompute_tfidf`: recompute TF-IDF vectors and norms for all docs
from the current `df` / `doc_count`. -/
noncomputable def LexState.recompute_tfidf (s : LexState) : LexState :=
  { s with docs := s.docs.map (recomputeDoc s.df s.doc_count) }

/-- `df` update for one added document: `df[t] += 1` once for each unique
term of the document. -/
def dfBump (df : String → Nat) (text : String) : String → Nat :=
  fun t => if t ∈ simple_tokenize text then df t + 1 else df t

/-- `add_texts(texts, metadatas)`: pair texts with metadatas (`zip`
truncates to the shorter list; `metadatas=None` supplies one empty dict
per text), append raw docs with sequential ids, bump `df`, bump
`doc_count`, recompute all TF-IDF vectors, and return the number added.
(The trailing `_save()` is modelled separately by `saveLex`.) -/
noncomputable def LexState.add_texts (s : LexState) (texts : List String)
    (metadatas : Option (List (List (String × Json)))) : LexState × Nat :=
  let metas := metadatas.getD (texts.map (fun _ => []))
  let pairs := texts.zip metas
  let newDocs := pairs.enum.map (fun q =>
    { id := ("d") ++ toString (s.doc_count + q.1 + 1), text := q.2.1,
      metadata := q.2.2, tfidf := [], length := 0 : LexDoc })
  let df' := pairs.foldl (fun acc q => dfBump acc q.1) s.df
  let count := pairs.length
  let s' : LexState :=
    { s with docs := s.docs ++ newDocs, df := df', doc_count := s.doc_count + count }
  (s'.recompute_tfidf, count)

/-- `_tfidf_query`: TF-IDF representation of the query from the current
`df` / `doc_count` (the query never writes to `df`). -/
noncomputable def LexState.tfidf_query (s : LexState) (query : String) :
    List (String × ℝ) × ℝ :=
  tfidfDocOf s.df s.doc_count query

/-- `_cosine_sim`: 0 if either norm is 0, else the sparse dot product over
the query's terms divided by the product of norms. -/
noncomputable def cosine_sim (qv : List (String × ℝ)) (qnorm : ℝ)
    (dv : List (String × ℝ)) (dnorm : ℝ) : ℝ :=
  if qnorm = 0 ∨ dnorm = 0 then 0
  else (qv.map (fun p => match lookupA dv p.1 with
    | some w => p.2 * w
    | none => 0)).sum / (qnorm * dnorm)

/-- A `{id, text, metadata, score}` search result row (shared by both
backends). -/
structure SearchResult where
  id : String
  text : String
  metadata : List (String × Json)
  score : ℝ

/-- `LexicalVectorStore.search(query, k)`: score every document, keep
`sim > 0`, stable-sort descending (Python `list.sort(reverse=True)`),
take `max(1, k)`, and project to result rows. -/
noncomputable def LexState.search (s : LexState) (query : String) (k : ℤ) :
    List SearchResult :=
  let qp := s.tfidf_query query
  let scored := (s.docs.map (fun d => (cosine_sim qp.1 qp.2 d.tfidf d.length, d))).filter
    (fun p => decide (0 < p.1))
  let sorted := scored.mergeSort (fun a b => decide (b.1 ≤ a.1))
  (sorted.take (max 1 k).toNat).map (fun p => ⟨p.2.id, p.2.text, p.2.metadata, p.1⟩)

/-! ### Lexical persistence (`_save` / `_load`) -/

/-- The JSON payload written by `LexicalVectorStore._save` (the constant
`meta` header is omitted). -/
structure LexPayload where
  doc_count : Nat
  df : String → Nat
  docs : List LexDoc

/-- `_save`: serialise the full snapshot. -/
def saveLex (s : LexState) : LexPayload :=
  { doc_count := s.doc_count, df := s.df, docs := s.docs }

/-- `_load` inside `__init__(path)`: restore `doc_count`, `df` and the
document list from the payload on disk. -/
def loadLex (path : String) (p : LexPayload) : LexState :=
  { path := path, docs := p.docs, df := p.df, doc_count := p.doc_count }

/-! ### FAISS store state (`FaissVectorStore`) -/

/-- `FaissDoc`: lightweight representation of a stored FAISS document. -/
structure FaissDoc where
  id : String
  text : String
  metadata : List (String × Json)

/-- The external OpenAI embeddings API, as a deterministic oracle from one
input text to one raw (un-normalised) embedding vector. `client = none`
models a missing `OPENAI_API_KEY` (no `OpenAI` client constructed). -/
structure EmbedClient where
  embedRaw : String → List ℝ

/-- The metadata sidecar payload written by `FaissVectorStore._save`
(constant `meta` header omitted; `dim` is written as `self.dim or 0`). -/
structure FaissMetaPayload where
  dim : Nat
  docs : List FaissDoc

/-- The two on-disk artifacts: the native FAISS index file (modelled as
its list of row vectors) and the metadata sidecar. -/
structure FaissDisk where
  indexFile : Option (List (List ℝ))
  metaFile : Option FaissMetaPayload

/-- In-memory state of a `FaissVectorStore` together with its on-disk
files (so that "the failed call left the files unchanged" is statable). -/
structure FaissState where
  client : Option EmbedClient
  dim : Option Nat
  docs : List FaissDoc
  count : Nat
  index : Option (List (List ℝ))
  disk : FaissDisk

/-- The message of the `RuntimeError` raised by `_embed` when no client is
configured. -/
def embedErrMsg : String := "OpenAI client not configured for embeddings"

/-- L2-normalise one embedding row (`arr / norms` with the zero-norm
divisor replaced by 1.0). -/
noncomputable def normalizeVec (v : List ℝ) : List ℝ :=
  let n := Real.sqrt ((v.map (fun x => x * x)).sum)
  let n := if n = 0 then 1 else n
  v.map (fun x => x / n)

/-- `_ensure_index`: create the (empty) flat index if not yet initialised. -/
def FaissState.ensure_index (s : FaissState) : FaissState :=
  match s.index with
  | some _ => s
  | none => { s with index := some [] }

/-- `_save`: write the index (an empty placeholder index when `_index` is
`None`, which is also assigned back to `self._index`) and the metadata
sidecar with `dim or 0` and the document rows. -/
def FaissState.saveF (s : FaissState) : FaissState :=
  let rows := s.index.getD []
  { s with index := some rows,
           disk := { indexFile := some rows,
                     metaFile := some { dim := s.dim.getD 0, docs := s.docs } } }

/-- The batched loop inside `add_texts`: per batch of at most 64 texts,
embed the whole batch, append one doc per `zip(batch_t, batch_m)` pair
(ids `d{start + added + i + 1}`), and hand *all* batch vectors to
`self._index.add`.  Returns (new docs, new index rows, final `added`,
where `added` grows by `len(batch_t)` per batch). -/
noncomputable def faiss_add_loop (c : EmbedClient) (start : Nat) :
    List String → List (List (String × Json)) → Nat →
    List FaissDoc × List (List ℝ) × Nat
  | [], _, added => ([], [], added)
  | t :: ts, ms, added =>
    let bt := t :: ts.take 63
    let bm := ms.take 64
    let vecs := bt.map (fun x => normalizeVec (c.embedRaw x))
    let newDocs := (bt.zip bm).enum.map (fun q =>
      { id := ("d") ++ toString (start + added + q.1 + 1), text := q.2.1,
        metadata := q.2.2 : FaissDoc })
    let rest := faiss_add_loop c start (ts.drop 63) (ms.drop 64) (added + bt.length)
    (newDocs ++ rest.1, vecs ++ rest.2.1, rest.2.2)
termination_by ts _ _ => ts.length
decreasing_by simp only [List.length_drop, List.length_cons]; omega

/-- `FaissVectorStore.add_texts(texts, metadatas)`: empty input returns 0;
otherwise ensure the index, embed batch-wise (raising `RuntimeError` at
the first `_embed` when no client is configured, with `self._index`
already ensured but docs and disk untouched), set `dim` on the first
embedding, extend `docs` and the index, set `count = len(docs)`, save,
and return `added` (which counts texts, not appended docs). -/
noncomputable def FaissState.add_texts (s : FaissState) (texts : List String)
    (metadatas : Option (List (List (String × Json)))) :
    Except String Nat × FaissState :=
  if texts.isEmpty then (.ok 0, s)
  else
    let metas := metadatas.getD (texts.map (fun _ => []))
    let s₁ := s.ensure_index
    match s₁.client with
    | none => (.error embedErrMsg, s₁)
    | some c =>
      let r := faiss_add_loop c s₁.count texts metas 0
      let docs' := s₁.docs ++ r.1
      let dim' := match s₁.dim with
        | some d => some d
        | none => some (normalizeVec (c.embedRaw texts.headI)).length
      let s₂ : FaissState :=
        { s₁ with dim := dim', docs := docs',
                  index := some (s₁.index.getD [] ++ r.2.1), count := docs'.length }
      (.ok r.2.2, s₂.saveF)

/-- `clear()`: reset docs/dim, rebuild an empty index, persist. -/
def FaissState.clearF (s : FaissState) : FaissState :=
  ({ s with docs := [], count := 0, dim := none, index := some [] }).saveF

/-- Inner product of two rows (FAISS `IndexFlatIP` scoring; `zip`
truncates to the shorter, vectors stored and queried have equal width in
every reachable use). -/
noncomputable def dotL (v w : List ℝ) : ℝ :=
  ((v.zip w).map (fun p => p.1 * p.2)).sum

/-- Exact top-`k` inner-product search of a flat index: score every row,
sort descending, take `k`, and pad with row id `-1` (as FAISS does when
fewer than `k` vectors are stored; padded scores are never read because
the caller skips out-of-range row ids). -/
noncomputable def faissTopK (rows : List (List ℝ)) (qv : List ℝ) (k : Nat) :
    List (ℝ × Int) :=
  let scored := rows.enum.map (fun p => (dotL qv p.2, (p.1 : Int)))
  let sorted := scored.mergeSort (fun a b => decide (b.1 ≤ a.1))
  let top := sorted.take k
  top ++ List.replicate (k - top.length) (0, (-1 : Int))

/-- The zip-back step of `search`: keep `(score, idx)` pairs whose row id
is in range and project `docs[idx]` to a result row. -/
noncomputable def faissRowsToResults (docs : List FaissDoc) (pairs : List (ℝ × Int)) :
    List SearchResult :=
  pairs.filterMap (fun p =>
    if h : 0 ≤ p.2 ∧ p.2.toNat < docs.length then
      let d := docs.get ⟨p.2.toNat, h.2⟩
      some ⟨d.id, d.text, d.metadata, p.1⟩
    else none)

/-- `FaissVectorStore.search(query, k)`: empty store (or uninitialised
index) returns `[]`; stripped-empty query returns `[]`; otherwise embed
the query (raising when no client is configured), run exact top-`max(1,k)`
search and zip rows back to docs, skipping out-of-range row ids. -/
noncomputable def FaissState.searchF (s : FaissState) (query : String) (k : ℤ) :
    Except String (List SearchResult) × FaissState :=
  if s.docs.isEmpty || s.index.isNone then (.ok [], s)
  else
    let q := pyStrip query
    if q = "" then (.ok [], s)
    else
      match s.client with
      | none => (.error embedErrMsg, s)
      | some c =>
        let qv := normalizeVec (c.embedRaw q)
        let s' : FaissState :=
          { s with dim := match s.dim with | some d => some d | none => some qv.length }
        let pairs := faissTopK (s.index.getD []) qv (max 1 k).toNat
        (.ok (faissRowsToResults s.docs pairs), s')

/-! ### FAISS persistence and construction -/

/-- The load branch of `_load_or_init` when index file and sidecar both
exist: restore `dim`, `docs`, `count = len(docs)` and the index verbatim. -/
def faissLoadState (client : Option EmbedClient) (disk : FaissDisk)
    (rows : List (List ℝ)) (m : FaissMetaPayload) : FaissState :=
  { client := client, dim := some m.dim, docs := m.docs, count := m.docs.length,
    index := some rows, disk := disk }

/-- `_load_or_init(legacy_json)`: load both files if present; otherwise
start empty, and if a legacy lexical JSON with at least one document is
supplied, migrate it through one `add_texts` call — whose failure (e.g.
`_embed` with no client) propagates out of the constructor. -/
noncomputable def load_or_init (client : Option EmbedClient) (disk : FaissDisk)
    (legacy : Option LexPayload) : Except String FaissState :=
  match disk.indexFile, disk.metaFile with
  | some rows, some m => .ok (faissLoadState client disk rows m)
  | _, _ =>
    let base : FaissState :=
      { client := client, dim := none, docs := [], count := 0, index := none, disk := disk }
    match legacy with
    | some p =>
      let texts := p.docs.map (fun d => d.text)
      let metas := p.docs.map (fun d => d.metadata)
      if texts.isEmpty then .ok base
      else
        match base.add_texts texts (some metas) with
        | (.ok _, s') => .ok s'
        | (.error e, _) => .error e
    | none => .ok base

/-! ### Store selector (`app/main.py:_get_work_history_store`) -/

/-- The environment a selector resolution sees: the embedding credential
(`client = none` iff `OPENAI_API_KEY` is empty), the FAISS files derived
from the corpus anchor, the anchor file's own contents (which double as
the legacy lexical snapshot), and the anchor path. -/
structure Env where
  client : Option EmbedClient
  faissDisk : FaissDisk
  legacy : Option LexPayload
  anchor : String

/-- `embedding_store.get_work_history_store`: construct the FAISS store
over the paths derived from the anchor, passing the anchor file as
`legacy_json`. -/
noncomputable def construct_vector_store (env : Env) : Except String FaissState :=
  load_or_init env.client env.faissDisk env.legacy

/-- `vector_store.get_work_history_store` /
`LexicalVectorStore(WORK_HISTORY_STORE_FILE)`: load the anchor file if it
exists (never raising; a failed parse would start fresh), else start
fresh. -/
def lexical_fallback (env : Env) : LexState :=
  match env.legacy with
  | some p => loadLex env.anchor p
  | none => emptyLex env.anchor

/-- The store the selector hands back: one of the two backends. -/
inductive StoreChoice where
  | vector (s : FaissState)
  | lexical (s : LexState)

/-- `_get_work_history_store`: try the FAISS factory; if construction
raises, fall back to the lexical store rooted at the same anchor.
Errors raised later by a successfully constructed store are *not*
intercepted here. -/
noncomputable def get_work_history_store (env : Env) : StoreChoice :=
  match construct_vector_store env with
  | .ok s => .vector s
  | .error _ => .lexical (lexical_fallback env)

/-! ### Chunk importer -/

/-- `import_helpers._read_text_document`, over the file's text content:
`[chunk.strip() for chunk in text.split("\n\n") if chunk.strip()]` paired
with one `{"source": path}` metadata dict per chunk. -/
def read_text_document (pathStr content : String) :
    List String × List (List (String × Json)) :=
  let chunks := ((pySplitNN content).filter (fun c => !(pyStrip c == ""))).map pyStrip
  (chunks, chunks.map (fun _ => [(("source"), Json.str pathStr)]))

/-- `obj.get("text") or obj.get("content") or obj.get("chunk") or ""`
in the `.jsonl` branch of `LexicalVectorStore.import_path`. -/
def lexTextField (fields : List (String × Json)) : Json :=
  pyOr (jsonGetD fields ("text"))
    (pyOr (jsonGetD fields ("content")) (pyOr (jsonGetD fields ("chunk")) (.str "")))

/-- `obj.get("metadata") or {k: v for k, v in obj.items() if k not in
{"text", "content", "chunk"}}` in the same branch. -/
def lexMetaField (fields : List (String × Json)) : Json :=
  let mv := jsonGetD fields ("metadata")
  if pyTruthy mv then mv
  else .obj (fields.filter (fun p => !(p.1 == "text" || p.1 == "content" || p.1 == "chunk")))

/-- One line of the `.jsonl` loop in `LexicalVectorStore.import_path`.
A line is `none` when `json.loads` raised (malformed JSON): the inner
`except` catches and continues, leaving the store untouched.  A parsed
non-dict raises `AttributeError` at `.get` — also caught before any
mutation.  A truthy non-string text raises inside `add_texts` at
`_simple_tokenize` (before `df`/`docs` are touched), and a truthy
non-dict `metadata` raises at `{**meta, ...}` before the call: both are
caught by the same `except`, so those lines too leave the store
untouched. -/
noncomputable def lexJsonlLine (pathStr : String) (st : LexState × Nat)
    (line : Option Json) : LexState × Nat :=
  match line with
  | none => st
  | some (Json.obj fields) =>
    let tv := lexTextField fields
    if pyTruthy tv then
      match tv, lexMetaField fields with
      | .str txt, .obj mfields =>
        let r := st.1.add_texts [txt] (some [setKey mfields ("source") (.str pathStr)])
        (r.1, st.2 + r.2)
      | _, _ => st
    else st
  | some _ => st

/-- A supported import file with its parsed content: a `.txt`/`.md` file
is its text, a `.jsonl` file is its list of non-blank stripped lines,
each classified by `json.loads` (`none` = malformed).  The `.json` branch
is not needed by any claim and is omitted. -/
inductive ImportFile where
  | txt (content : String)
  | jsonl (lines : List (Option Json))

/-- One file of `LexicalVectorStore.import_path`: the `.txt/.md` branch
(paragraph chunks, each with `{"source": path}`) or the `.jsonl` branch
(per-line `add_texts`). -/
noncomputable def lexImportFile (s : LexState) (pathStr : String) :
    ImportFile → LexState × Nat
  | .txt content =>
    let chunks := ((pySplitNN content).filter (fun c => !(pyStrip c == ""))).map pyStrip
    s.add_texts chunks (some (chunks.map (fun _ => [(("source"), Json.str pathStr)])))
  | .jsonl lines => lines.foldl (lexJsonlLine pathStr) (s, 0)

/-- `LexicalVectorStore.import_path` over the (already gathered, sorted)
file list of a directory: process each file, summing the added counts. -/
noncomputable def lexImportPath (s : LexState) (files : List (String × ImportFile)) :
    LexState × Nat :=
  files.foldl (fun acc pf =>
    let r := lexImportFile acc.1 pf.1 pf.2
    (r.1, acc.2 + r.2)) (s, 0)

/-! ### Store invariants and specification predicates -/

/-- Every stored document's `(tfidf, length)` is exactly what
`_recompute_tfidf` computes from the current `df`/`doc_count` — the state
of affairs after every `add_texts`. -/
def TfidfConsistent (s : LexState) : Prop :=
  ∀ d ∈ s.docs, (d.tfidf, d.length) = tfidfDocOf s.df s.doc_count d.text

/-- Structural invariants of a lexical store maintained by its API:
`df` covers every term of every stored document, `df` never exceeds
`doc_count`, and `doc_count` is the number of stored documents. -/
def LexInv (s : LexState) : Prop :=
  (∀ d ∈ s.docs, ∀ t ∈ simple_tokenize d.text, s.df t ≠ 0) ∧
  (∀ t, s.df t ≤ s.doc_count) ∧
  s.doc_count = s.docs.length

/-- The TF-IDF shape claimed by the spec for every stored document:
tokenless documents carry `({}, 0)`; otherwise each term `t` with count
`tf` weighs `(0.5 + 0.5 tf / max_tf) * (ln((1+N)/(1+df t)) + 1)` with
`N = doc_count`, all weights are strictly positive, and the stored
`length` is the (unguarded) L2 norm of the weight map. -/
def TfidfSpecHolds (s : LexState) : Prop :=
  ∀ d ∈ s.docs,
    (simple_tokenize d.text = [] → d.tfidf = [] ∧ d.length = 0) ∧
    (simple_tokenize d.text ≠ [] →
      (∀ p ∈ countTokens (simple_tokenize d.text),
        lookupA d.tfidf p.1 =
          some (((0.5 : ℝ) +
              0.5 * ((p.2 : ℝ) / ((maxTf (countTokens (simple_tokenize d.text))) : ℝ))) *
            (Real.log ((1 + (s.doc_count : ℝ)) / (1 + (s.df p.1 : ℝ))) + 1))) ∧
      (∀ q ∈ d.tfidf, 0 < q.2) ∧
      d.length = Real.sqrt (sumSqVals d.tfidf))

/-! ### Concrete instances used in witnesses and counterexamples -/

/-- The single stored document of `lexCat` (exactly what
`add_texts(["cat"])` on a fresh store produces: the weight of `"cat"` is
`(0.5 + 0.5·(1/1)) · (ln(2/2) + 1) = 1`, norm 1). -/
noncomputable def catDoc : LexDoc :=
  { id := ("d1"), text := ("cat"), metadata := [],
    tfidf := [(("cat"), 1)], length := 1 }

/-- A consistent one-document lexical store. -/
noncomputable def lexCat : LexState :=
  { path := ("wh.json"), docs := [catDoc],
    df := fun t => if t == ("cat") then 1 else 0, doc_count := 1 }

/-- Persist a FAISS store and construct a fresh instance over the same
on-disk files (`_save` followed by `__init__`/`_load_or_init` with the
same embedding configuration; the `legacy_json` argument is ignored by
the load branch because both files exist after a save). -/
noncomputable def reloadFaiss (s : FaissState) (legacy : Option LexPayload) :
    Except String FaissState :=
  load_or_init s.client (s.saveF).disk legacy

/-- A fresh FAISS store with no client, no files and no documents. -/
def emptyFaiss : FaissState :=
  { client := none, dim := none, docs := [], count := 0, index := none,
    disk := { indexFile := none, metaFile := none } }

/-- A FAISS store holding one document and one index row but no embedding
client (the in-memory state of a store loaded from disk after the
credential was removed). -/
noncomputable def faissNoClient : FaissState :=
  { client := none, dim := some 1,
    docs := [{ id := ("d1"), text := ("hi"), metadata := [] }], count := 1,
    index := some [[1]],
    disk := { indexFile := some [[1]],
              metaFile := some (FaissMetaPayload.mk 1
                [{ id := ("d1"), text := ("hi"), metadata := [] }]) } }

/-- A deterministic one-dimensional embedding oracle. -/
noncomputable def oneClient : EmbedClient := { embedRaw := fun _ => [1] }

/-- An empty FAISS store with a configured embedding client. -/
noncomputable def faissCE : FaissState := { emptyFaiss with client := some oneClient }

/-- The selector environment with no credential, no FAISS files and no
legacy corpus file. -/
def env0 : Env :=
  { client := none, faissDisk := { indexFile := none, metaFile := none },
    legacy := none, anchor := ("wh.json") }

/-- A one-document legacy lexical snapshot. -/
noncomputable def legPayload : LexPayload :=
  { doc_count := 1, df := fun t => if t == ("cat") then 1 else 0, docs := [catDoc] }

/-- The selector environment with no credential, no FAISS files, and a
non-empty legacy corpus file to migrate. -/
noncomputable def envLeg : Env :=
  { client := none, faissDisk := { indexFile := none, metaFile := none },
    legacy := some legPayload, anchor := ("wh.json") }

/-- The C8 scenario: a directory holding one `.txt` file with two
blank-line-separated paragraphs and one `.jsonl` file with two valid lines
plus one malformed line (already gathered and sorted). -/
noncomputable def scenarioFiles : List (String × ImportFile) :=
  [ (("kb/a.txt"), ImportFile.txt ("First paragraph.\n\nSecond paragraph.")),
    (("kb/b.jsonl"), ImportFile.jsonl
      [ some (Json.obj [(("text"), Json.str ("chunk one"))]),
        none,
        some (Json.obj [(("text"), Json.str ("chunk two"))]) ]) ]

/-! ### Support lemmas: association lists and term counts -/

theorem lookupA_eq_none {α : Type} {l : List (String × α)} {t : String}
    (h : ∀ p ∈ l, p.1 ≠ t) : lookupA l t = none := by
  induction l with
  | nil => rfl
  | cons p rest ih =>
    have hp : p.1 ≠ t := h p (List.mem_cons_self _ _)
    simp only [lookupA, beq_iff_eq, if_neg hp]
    exact ih (fun q hq => h q (List.mem_cons_of_mem _ hq))

theorem mem_bumpCount {l : List (String × Nat)} {t : String} {p : String × Nat}
    (h : p ∈ bumpCount l t) :
    (∃ q ∈ l, p = q ∨ (p.1 = q.1 ∧ p.2 = q.2 + 1)) ∨ p = (t, 1) := by
  unfold bumpCount at h
  split at h
  · rw [List.mem_map] at h
    obtain ⟨q, hq, he⟩ := h
    left
    refine ⟨q, hq, ?_⟩
    by_cases hqt : q.1 = t
    · simp only [beq_iff_eq, if_pos hqt] at he
      right
      exact ⟨by rw [← he], by rw [← he]⟩
    · simp only [beq_iff_eq, if_neg hqt] at he
      left
      exact he.symm
  · rw [List.mem_append] at h
    rcases h with h | h
    · exact Or.inl ⟨p, h, Or.inl rfl⟩
    · simp only [List.mem_singleton] at h
      exact Or.inr h

theorem bumpCount_fst_mem {l : List (String × Nat)} {t : String} {p : String × Nat}
    (h : p ∈ bumpCount l t) : p.1 ∈ l.map Prod.fst ∨ p.1 = t := by
  rcases mem_bumpCount h with ⟨q, hq, hpq⟩ | rfl
  · left
    rcases hpq with rfl | ⟨h1, _⟩
    · exact List.mem_map_of_mem _ hq
    · rw [h1]; exact List.mem_map_of_mem _ hq
  · exact Or.inr rfl

theorem bumpCount_pos {l : List (String × Nat)} {t : String}
    (h : ∀ q ∈ l, 1 ≤ q.2) : ∀ p ∈ bumpCount l t, 1 ≤ p.2 := by
  intro p hp
  rcases mem_bumpCount hp with ⟨q, hq, hpq⟩ | rfl
  · rcases hpq with rfl | ⟨_, h2⟩
    · exact h _ hq
    · rw [h2]; exact Nat.le_succ_of_le (Nat.le_of_lt_succ (Nat.lt_succ_of_le (h q hq)))
  · exact Nat.le_refl 1

theorem bumpCount_keys (l : List (String × Nat)) (t : String) :
    (bumpCount l t).map Prod.fst =
      if l.any (fun p => p.1 == t) then l.map Prod.fst else l.map Prod.fst ++ [t] := by
  unfold bumpCount
  split
  · rw [List.map_map]
    apply List.map_congr_left
    intro q _
    by_cases hqt : q.1 = t
    · simp [hqt]
    · simp [hqt]
  · rw [List.map_append]
    rfl

theorem bumpCount_keys_nodup {l : List (String × Nat)} {t : String}
    (h : (l.map Prod.fst).Nodup) : ((bumpCount l t).map Prod.fst).Nodup := by
  rw [bumpCount_keys]
  split
  · exact h
  · have hnt : t ∉ l.map Prod.fst := by
      intro hmem
      rw [List.mem_map] at hmem
      obtain ⟨q, hq, hqt⟩ := hmem
      have : l.any (fun p => p.1 == t) = true :=
        List.any_eq_true.mpr ⟨q, hq, by simp [hqt]⟩
      simp_all
    simp [List.nodup_append, h, hnt]

theorem countFrom_pos : ∀ (toks : List String) (l : List (String × Nat)),
    (∀ q ∈ l, 1 ≤ q.2) → ∀ p ∈ toks.foldl bumpCount l, 1 ≤ p.2
  | [], _, h => h
  | t :: toks, l, h => countFrom_pos toks (bumpCount l t) (bumpCount_pos h)

theorem countFrom_fst_mem : ∀ (toks : List String) (l : List (String × Nat))
    (p : String × Nat), p ∈ toks.foldl bumpCount l →
    p.1 ∈ l.map Prod.fst ∨ p.1 ∈ toks
  | [], _, _, h => Or.inl (List.mem_map_of_mem _ h)
  | t :: toks, l, p, h => by
    rcases countFrom_fst_mem toks (bumpCount l t) p h with h1 | h1
    · rw [bumpCount_keys] at h1
      split at h1
      · exact Or.inl h1
      · rcases List.mem_append.mp h1 with h2 | h2
        · exact Or.inl h2
        · simp only [List.mem_singleton] at h2
          rw [h2]
          exact Or.inr (List.mem_cons_self _ _)
    · exact Or.inr (List.mem_cons_of_mem _ h1)

theorem countFrom_keys_nodup : ∀ (toks : List String) (l : List (String × Nat)),
    (l.map Prod.fst).Nodup → ((toks.foldl bumpCount l).map Prod.fst).Nodup
  | [], _, h => h
  | t :: toks, l, h => countFrom_keys_nodup toks (bumpCount l t) (bumpCount_keys_nodup h)

theorem countTokens_pos {toks : List String} : ∀ p ∈ countTokens toks, 1 ≤ p.2 :=
  countFrom_pos toks [] (by simp)

theorem countTokens_fst_mem {toks : List String} {p : String × Nat}
    (h : p ∈ countTokens toks) : p.1 ∈ toks := by
  rcases countFrom_fst_mem toks [] p h with h1 | h1
  · simp at h1
  · exact h1

theorem countTokens_keys_nodup (toks : List String) :
    ((countTokens toks).map Prod.fst).Nodup :=
  countFrom_keys_nodup toks [] (by simp)

theorem bumpCount_ne_nil (l : List (String × Nat)) (t : String) :
    bumpCount l t ≠ [] := by
  unfold bumpCount
  split
  · rename_i hany
    cases l with
    | nil => simp at hany
    | cons q rest => simp
  · simp

theorem countFrom_ne_nil : ∀ (toks : List String) (l : List (String × Nat)),
    l ≠ [] → toks.foldl bumpCount l ≠ []
  | [], _, h => h
  | t :: toks, l, _ => countFrom_ne_nil toks (bumpCount l t) (bumpCount_ne_nil l t)

theorem countTokens_eq_nil {toks : List String} :
    countTokens toks = [] ↔ toks = [] := by
  constructor
  · intro h
    cases toks with
    | nil => rfl
    | cons t rest =>
      exact absurd h (countFrom_ne_nil rest (bumpCount [] t) (bumpCount_ne_nil [] t))
  · intro h
    rw [h]
    rfl

theorem maxTf_ge {tc : List (String × Nat)} {p : String × Nat} (h : p ∈ tc) :
    p.2 ≤ maxTf tc := by
  have step : ∀ (l : List (String × Nat)) (a : Nat),
      a ≤ l.foldl (fun m q => max m q.2) a := by
    intro l
    induction l with
    | nil => exact fun a => Nat.le_refl a
    | cons q rest ih =>
      intro a
      exact le_trans (Nat.le_max_left a q.2) (ih (max a q.2))
  have main : ∀ (l : List (String × Nat)) (a : Nat) (p : String × Nat), p ∈ l →
      p.2 ≤ l.foldl (fun m q => max m q.2) a := by
    intro l
    induction l with
    | nil => intro a p h; simp at h
    | cons q rest ih =>
      intro a p h
      rcases List.mem_cons.mp h with rfl | hmem
      · exact le_trans (Nat.le_max_right a p.2) (step rest (max a p.2))
      · exact ih (max a q.2) p hmem
  exact main tc 0 p h

/-! ### Support lemmas: weight vectors and `df` updates -/

theorem weighVec_keys (df : String → Nat) (N : Nat) (tc : List (String × Nat)) :
    (weighVec df N tc).map Prod.fst = tc.map Prod.fst := by
  unfold weighVec
  rw [List.map_map]
  rfl

theorem lookupA_keyed_map {tc : List (String × Nat)} {f : String × Nat → ℝ}
    {t : String} {n : Nat} (hnd : (tc.map Prod.fst).Nodup) (hmem : (t, n) ∈ tc) :
    lookupA (tc.map (fun p => (p.1, f p))) t = some (f (t, n)) := by
  induction tc with
  | nil => simp at hmem
  | cons q rest ih =>
    simp only [List.map_cons, List.nodup_cons] at hnd
    rcases List.mem_cons.mp hmem with heq | hmem'
    · rw [← heq]
      simp [lookupA]
    · have ht : t ∈ rest.map Prod.fst := List.mem_map_of_mem Prod.fst hmem'
      have hqt : q.1 ≠ t := fun h => hnd.1 (h ▸ ht)
      simp only [List.map_cons, lookupA, beq_iff_eq, if_neg hqt]
      exact ih hnd.2 hmem'

theorem dfBump_ge (df : String → Nat) (x t : String) : df t ≤ dfBump df x t := by
  unfold dfBump
  split <;> omega

theorem dfBump_le (df : String → Nat) (x t : String) : dfBump df x t ≤ df t + 1 := by
  unfold dfBump
  split <;> omega

theorem dfBump_hit (df : String → Nat) (x t : String) (h : t ∈ simple_tokenize x) :
    dfBump df x t = df t + 1 := by
  unfold dfBump
  rw [if_pos h]

theorem dfFold_ge {β : Type} : ∀ (ps : List (String × β)) (df : String → Nat) (t : String),
    df t ≤ (ps.foldl (fun acc q => dfBump acc q.1) df) t
  | [], _, _ => Nat.le_refl _
  | q :: ps, df, t =>
    le_trans (dfBump_ge df q.1 t) (dfFold_ge ps (dfBump df q.1) t)

theorem dfFold_le {β : Type} : ∀ (ps : List (String × β)) (df : String → Nat) (t : String),
    (ps.foldl (fun acc q => dfBump acc q.1) df) t ≤ df t + ps.length
  | [], _, _ => Nat.le_refl _
  | q :: ps, df, t => by
    have h1 := dfFold_le ps (dfBump df q.1) t
    have h2 := dfBump_le df q.1 t
    simp only [List.foldl_cons, List.length_cons]
    omega

theorem dfFold_hit {β : Type} : ∀ (ps : List (String × β)) (df : String → Nat) (t : String),
    (∃ q ∈ ps, t ∈ simple_tokenize q.1) →
    (ps.foldl (fun acc q => dfBump acc q.1) df) t ≠ 0
  | [], _, _, h => by simp at h
  | q :: ps, df, t, h => by
    obtain ⟨r, hr, htok⟩ := h
    rcases List.mem_cons.mp hr with rfl | hmem
    · have h1 : dfBump df r.1 t = df t + 1 := dfBump_hit df r.1 t htok
      have h2 := dfFold_ge ps (dfBump df r.1) t
      simp only [List.foldl_cons]
      omega
    · exact dfFold_hit ps (dfBump df q.1) t ⟨r, hmem, htok⟩

theorem snd_mem_of_mem_enum {α : Type} {l : List α} {x : Nat × α} (h : x ∈ l.enum) :
    x.2 ∈ l := by
  rw [List.mem_enum_iff_getElem?] at h
  exact List.getElem?_mem h

/-! ### Support lemmas: `add_texts` state shape and invariants -/

theorem add_texts_df (s : LexState) (texts : List String)
    (m : Option (List (List (String × Json)))) :
    ((s.add_texts texts m).1).df =
      (texts.zip (m.getD (texts.map fun _ => []))).foldl
        (fun acc q => dfBump acc q.1) s.df := rfl

theorem add_texts_doc_count (s : LexState) (texts : List String)
    (m : Option (List (List (String × Json)))) :
    ((s.add_texts texts m).1).doc_count =
      s.doc_count + (texts.zip (m.getD (texts.map fun _ => []))).length := rfl

theorem add_texts_count (s : LexState) (texts : List String)
    (m : Option (List (List (String × Json)))) :
    (s.add_texts texts m).2 =
      (texts.zip (m.getD (texts.map fun _ => []))).length := rfl

theorem add_texts_docs_length (s : LexState) (texts : List String)
    (m : Option (List (List (String × Json)))) :
    ((s.add_texts texts m).1).docs.length =
      s.docs.length + (texts.zip (m.getD (texts.map fun _ => []))).length := by
  simp [LexState.add_texts, LexState.recompute_tfidf]

theorem add_texts_docs_texts (s : LexState) (texts : List String)
    (m : Option (List (List (String × Json)))) :
    ∀ d ∈ ((s.add_texts texts m).1).docs,
      (∃ d₀ ∈ s.docs, d.text = d₀.text) ∨
      (∃ pr ∈ texts.zip (m.getD (texts.map fun _ => [])), d.text = pr.1) := by
  intro d hd
  simp only [LexState.add_texts, LexState.recompute_tfidf, List.mem_map,
    List.mem_append] at hd
  obtain ⟨d₀, hd₀ | hd₀, rfl⟩ := hd
  · exact Or.inl ⟨d₀, hd₀, rfl⟩
  · obtain ⟨q, hq, he⟩ := hd₀
    refine Or.inr ⟨q.2, snd_mem_of_mem_enum hq, ?_⟩
    rw [← he]
    rfl

theorem add_texts_consistent (s : LexState) (texts : List String)
    (m : Option (List (List (String × Json)))) :
    TfidfConsistent (s.add_texts texts m).1 := by
  intro d hd
  simp only [LexState.add_texts, LexState.recompute_tfidf, List.mem_map] at hd
  obtain ⟨d₀, _, rfl⟩ := hd
  rfl

theorem weighVec_pos {df : String → Nat} {N : Nat} {tc : List (String × Nat)}
    (hidf : ∀ p ∈ tc, 0 < idfOf df N p.1) :
    ∀ q ∈ weighVec df N tc, 0 < q.2 := by
  intro q hq
  unfold weighVec at hq
  rw [List.mem_map] at hq
  obtain ⟨p, hp, rfl⟩ := hq
  have h1 : (0 : ℝ) < (0.5 : ℝ) + 0.5 * ((p.2 : ℝ) / (maxTf tc : ℝ)) := by positivity
  exact mul_pos h1 (hidf p hp)

theorem idfOf_pos {df : String → Nat} {N : Nat} {t : String} (h : df t ≤ N) :
    0 < idfOf df N t := by
  unfold idfOf
  split
  · have hden : (0 : ℝ) < 1 + (df t : ℝ) := by positivity
    have hle : (1 : ℝ) + (df t : ℝ) ≤ 1 + (N : ℝ) := by
      have : (df t : ℝ) ≤ (N : ℝ) := by exact_mod_cast h
      linarith
    have hlog : 0 ≤ Real.log ((1 + (N : ℝ)) / (1 + (df t : ℝ))) :=
      Real.log_nonneg ((one_le_div hden).mpr hle)
    linarith
  · norm_num

theorem tfidfSpec_of_consistent {s : LexState} (hc : TfidfConsistent s)
    (hinv : LexInv s) : TfidfSpecHolds s := by
  obtain ⟨hcov, hbound, hlen⟩ := hinv
  intro d hd
  have hcd := hc d hd
  constructor
  · intro htok
    unfold tfidfDocOf at hcd
    rw [htok] at hcd
    simp only [countTokens, List.foldl_nil, List.isEmpty_nil, if_pos] at hcd
    rw [Prod.ext_iff] at hcd
    exact ⟨hcd.1, hcd.2⟩
  · intro htok
    have hdocs_ne : s.docs ≠ [] := by
      intro h0
      rw [h0] at hd
      simp at hd
    have hdc1 : 1 ≤ s.doc_count := by
      rw [hlen]
      cases hl : s.docs with
      | nil => exact absurd hl hdocs_ne
      | cons a l => simp
    have hN : max 1 s.doc_count = s.doc_count := Nat.max_eq_right hdc1
    have htc_ne : countTokens (simple_tokenize d.text) ≠ [] :=
      fun h0 => htok (countTokens_eq_nil.mp h0)
    unfold tfidfDocOf at hcd
    rw [if_neg (by simpa [List.isEmpty_iff] using htc_ne), hN] at hcd
    rw [Prod.ext_iff] at hcd
    obtain ⟨htf, hlen'⟩ := hcd
    dsimp only at htf hlen'
    have hidf : ∀ p ∈ countTokens (simple_tokenize d.text),
        0 < idfOf s.df s.doc_count p.1 := by
      intro p hp
      exact idfOf_pos (hbound p.1)
    have hwpos : ∀ q ∈ weighVec s.df s.doc_count (countTokens (simple_tokenize d.text)),
        0 < q.2 :=
      weighVec_pos hidf
    refine ⟨?_, ?_, ?_⟩
    · intro p hp
      obtain ⟨pt, pn⟩ := p
      rw [htf]
      unfold weighVec
      have hlook := lookupA_keyed_map
        (f := fun p => ((0.5 : ℝ) +
          0.5 * ((p.2 : ℝ) / ((maxTf (countTokens (simple_tokenize d.text))) : ℝ))) *
            idfOf s.df s.doc_count p.1)
        (countTokens_keys_nodup (simple_tokenize d.text)) hp
      rw [hlook]
      have hdf : s.df pt ≠ 0 := hcov d hd pt (countTokens_fst_mem hp)
      dsimp only
      unfold idfOf
      rw [if_pos hdf]
    · intro q hq
      rw [htf] at hq
      exact hwpos q hq
    · rw [hlen', htf]
      unfold orOne
      have hsum : 0 < sumSqVals
          (weighVec s.df s.doc_count (countTokens (simple_tokenize d.text))) := by
        unfold sumSqVals
        apply List.sum_pos
        · intro x hx
          rw [List.mem_map] at hx
          obtain ⟨q, hq, rfl⟩ := hx
          exact mul_pos (hwpos q hq) (hwpos q hq)
        · have hne : weighVec s.df s.doc_count
              (countTokens (simple_tokenize d.text)) ≠ [] := by
            unfold weighVec
            simpa using htc_ne
          simpa using hne
      rw [if_neg (by positivity)]

theorem add_texts_inv (s : LexState) (texts : List String)
    (m : Option (List (List (String × Json)))) (h : LexInv s) :
    LexInv (s.add_texts texts m).1 := by
  obtain ⟨hcov, hbound, hlen⟩ := h
  refine ⟨?_, ?_, ?_⟩
  · intro d hd t ht
    rw [add_texts_df]
    rcases add_texts_docs_texts s texts m d hd with ⟨d₀, hd₀, he⟩ | ⟨pr, hpr, he⟩
    · rw [he] at ht
      have h0 := hcov d₀ hd₀ t ht
      have := dfFold_ge (texts.zip (m.getD (texts.map fun _ => []))) s.df t
      omega
    · rw [he] at ht
      exact dfFold_hit _ s.df t ⟨pr, hpr, ht⟩
  · intro t
    rw [add_texts_df, add_texts_doc_count]
    have h1 := dfFold_le (texts.zip (m.getD (texts.map fun _ => []))) s.df t
    have h2 := hbound t
    omega
  · rw [add_texts_doc_count, add_texts_docs_length, hlen]

/-! ### Claim C3 -/

/-- C3: after every call to `LexicalVectorStore.add_texts` (from any state
satisfying the structural store invariants `LexInv`, which hold for every
state the API can produce), the tfidf map of *every* stored document equals
the stated deterministic function of the current `df` and `doc_count`:
`weight(t) = (0.5 + 0.5 tf/max_tf) * (ln((1+N)/(1+df t)) + 1)` with
`N = doc_count`, every weight strictly positive, the stored `length` equal
to the L2 norm of the map, and `tfidf = {}`, `length = 0` for a tokenless
document. -/
theorem C3_add_texts_tfidf_spec (s : LexState) (texts : List String)
    (m : Option (List (List (String × Json)))) (h : LexInv s) :
    TfidfSpecHolds (s.add_texts texts m).1 :=
  tfidfSpec_of_consistent (add_texts_consistent s texts m) (add_texts_inv s texts m h)

/-- Witness for C3 at the empty store and one concrete batch. -/
theorem C3_add_texts_tfidf_spec_witness :
    LexInv (emptyLex ("kb.json")) ∧
    TfidfSpecHolds ((emptyLex ("kb.json")).add_texts [("alpha beta")] none).1 :=
  ⟨⟨by simp [emptyLex], fun t => Nat.le_refl 0, rfl⟩,
   C3_add_texts_tfidf_spec (emptyLex ("kb.json")) [("alpha beta")] none
     ⟨by simp [emptyLex], fun t => Nat.le_refl 0, rfl⟩⟩

/-! ### Claim C10 -/

/-- C10: when `metadatas` is an explicit list shorter than `texts`,
`LexicalVectorStore.add_texts` silently adds exactly
`min(len(texts), len(metadatas)) = len(metadatas)` documents (the `zip`
truncation), returns that count, and `doc_count` (and the stored document
list) grow by exactly that number. -/
theorem C10_add_texts_truncates (s : LexState) (texts : List String)
    (metas : List (List (String × Json))) (h : metas.length < texts.length) :
    (s.add_texts texts (some metas)).2 = min texts.length metas.length ∧
    (s.add_texts texts (some metas)).2 = metas.length ∧
    ((s.add_texts texts (some metas)).1).doc_count =
      s.doc_count + min texts.length metas.length ∧
    ((s.add_texts texts (some metas)).1).docs.length =
      s.docs.length + min texts.length metas.length := by
  have hz : (texts.zip metas).length = min texts.length metas.length :=
    List.length_zip ..
  have hmin : min texts.length metas.length = metas.length :=
    Nat.min_eq_right (Nat.le_of_lt h)
  refine ⟨?_, ?_, ?_, ?_⟩
  · rw [add_texts_count]
    simp
  · rw [add_texts_count]
    simp [hmin]
  · rw [add_texts_doc_count]
    simp
  · rw [add_texts_docs_length]
    simp

/-- Witness for C10 at a concrete call with 2 texts and 1 metadata dict. -/
theorem C10_add_texts_truncates_witness :
    ([([(("k"), Json.null)])] : List (List (String × Json))).length <
      [("a"), ("b")].length ∧
    ((emptyLex ("kb.json")).add_texts [("a"), ("b")]
      (some [([(("k"), Json.null)])])).2 = 1 :=
  ⟨by decide,
   ((C10_add_texts_truncates (emptyLex ("kb.json")) [("a"), ("b")]
      [([(("k"), Json.null)])] (by decide)).2.1)⟩

/-! ### Claim C1 -/

theorem tfidfDocOf_keys (df : String → Nat) (N : Nat) (text : String) :
    ∀ p ∈ (tfidfDocOf df N text).1, p.1 ∈ simple_tokenize text := by
  intro p hp
  simp only [tfidfDocOf] at hp
  split at hp
  · simp at hp
  · dsimp only at hp
    unfold weighVec at hp
    rw [List.mem_map] at hp
    obtain ⟨q, hq, rfl⟩ := hp
    exact countTokens_fst_mem hq

theorem consistent_tfidf_keys {s : LexState} (hs : TfidfConsistent s) {d : LexDoc}
    (hd : d ∈ s.docs) : ∀ p ∈ d.tfidf, p.1 ∈ simple_tokenize d.text := by
  intro p hp
  have h := congrArg Prod.fst (hs d hd)
  dsimp only at h
  rw [h] at hp
  exact tfidfDocOf_keys _ _ _ p hp

/-- C1 (amended): `LexicalVectorStore.search(query, k)` scores each stored
document by `_cosine_sim` over the query vector built from the current
table (the model's `search` reads the state and returns only a result
list — mirroring the source, which assigns no attribute during a search),
keeps only documents with score strictly greater than 0, returns them
sorted in descending score order with each result row carrying the
document's id/text/metadata and its cosine score, excludes any document
sharing no terms with the query (its cosine is exactly 0), and returns at
most `max(1, k)` rows — which is "at most k" only for `k ≥ 1`; for
`k ≤ 0` the code still returns up to one row (see the counterexample). -/
theorem C1_search_spec (s : LexState) (hs : TfidfConsistent s) (query : String) (k : ℤ) :
    (s.search query k).length ≤ (max 1 k).toNat ∧
    (1 ≤ k → (s.search query k).length ≤ k.toNat) ∧
    (s.search query k).Pairwise (fun a b => b.score ≤ a.score) ∧
    (∀ r ∈ s.search query k,
      0 < r.score ∧
      ∃ d ∈ s.docs,
        r = ⟨d.id, d.text, d.metadata,
          cosine_sim (s.tfidf_query query).1 (s.tfidf_query query).2 d.tfidf d.length⟩) ∧
    (∀ d ∈ s.docs, (∀ t ∈ simple_tokenize d.text, t ∉ simple_tokenize query) →
      cosine_sim (s.tfidf_query query).1 (s.tfidf_query query).2 d.tfidf d.length = 0) ∧
    (∀ (qv dv : List (String × ℝ)) (qn dn : ℝ), qn = 0 ∨ dn = 0 →
      cosine_sim qv qn dv dn = 0) := by
  have htrans : ∀ (a b c : ℝ × LexDoc),
      (fun a b => decide (b.1 ≤ a.1)) a b → (fun a b => decide (b.1 ≤ a.1)) b c →
      (fun a b => decide (b.1 ≤ a.1)) a c := by
    intro a b c hab hbc
    simp only [decide_eq_true_eq] at *
    exact le_trans hbc hab
  have htotal : ∀ (a b : ℝ × LexDoc),
      ((fun a b => decide (b.1 ≤ a.1)) a b || (fun a b => decide (b.1 ≤ a.1)) b a) = true := by
    intro a b
    rcases le_total b.1 a.1 with h | h <;> simp [h]
  refine ⟨?_, ?_, ?_, ?_, ?_, ?_⟩
  · simp only [LexState.search, List.length_map, List.length_take]
    exact Nat.min_le_left _ _
  · intro hk
    simp only [LexState.search, List.length_map, List.length_take]
    rw [max_eq_right hk]
    exact Nat.min_le_left _ _
  · simp only [LexState.search]
    exact (((List.sorted_mergeSort htrans htotal _).sublist
      (List.take_sublist _ _)).map _
      (fun a b h => by exact decide_eq_true_eq.mp h))
  · intro r hr
    simp only [LexState.search, List.mem_map] at hr
    obtain ⟨p, hp, rfl⟩ := hr
    have hp2 := List.take_subset _ _ hp
    rw [List.mem_mergeSort] at hp2
    have hmem := List.mem_of_mem_filter hp2
    have hpos := List.of_mem_filter hp2
    rw [decide_eq_true_eq] at hpos
    rw [List.mem_map] at hmem
    obtain ⟨d, hd, he⟩ := hmem
    refine ⟨hpos, d, hd, ?_⟩
    rw [← he]
  · intro d hd hdisj
    unfold cosine_sim
    split
    · rfl
    · have hdot : ((s.tfidf_query query).1.map (fun p =>
          match lookupA d.tfidf p.1 with
          | some w => p.2 * w
          | none => 0)).sum = 0 := by
        apply List.sum_eq_zero
        intro x hx
        rw [List.mem_map] at hx
        obtain ⟨p, hp, rfl⟩ := hx
        have hq : p.1 ∈ simple_tokenize query := tfidfDocOf_keys _ _ _ p hp
        have hnone : lookupA d.tfidf p.1 = none := by
          apply lookupA_eq_none
          intro pd hpd heq
          exact hdisj pd.1 (consistent_tfidf_keys hs hd pd hpd) (heq ▸ hq)
        rw [hnone]
      rw [hdot, zero_div]
  · intro qv dv qn dn h
    unfold cosine_sim
    rw [if_pos h]

/-- Witness for C1 at the empty store. -/
theorem C1_search_spec_witness :
    TfidfConsistent (emptyLex ("kb.json")) ∧
    ((emptyLex ("kb.json")).search ("cat") 5).length ≤ (max 1 (5 : ℤ)).toNat :=
  ⟨by intro d hd; simp [emptyLex] at hd,
   (C1_search_spec (emptyLex ("kb.json"))
     (by intro d hd; simp [emptyLex] at hd) ("cat") 5).1⟩

theorem lexCat_tfidfDocOf : tfidfDocOf lexCat.df 1 ("cat") = ([(("cat"), 1)], 1) := by
  have htok : simple_tokenize ("cat") = [("cat")] := by decide
  have hdf : lexCat.df ("cat") = 1 := by decide
  have hidf : idfOf lexCat.df 1 ("cat") = 1 := by
    unfold idfOf
    rw [if_pos (by decide), hdf]
    norm_num [Real.log_one]
  have hw : weighVec lexCat.df 1 [(("cat"), 1)] = [(("cat"), 1)] := by
    unfold weighVec
    simp only [List.map_cons, List.map_nil]
    rw [show maxTf [(("cat"), 1)] = 1 from by decide]
    rw [hidf]
    norm_num
  simp only [tfidfDocOf, htok]
  rw [show countTokens [("cat")] = [(("cat"), 1)] from by decide]
  rw [if_neg (by decide)]
  rw [show max 1 1 = 1 from rfl, hw]
  have hsum : sumSqVals [(("cat"), (1 : ℝ))] = 1 := by
    unfold sumSqVals
    simp
  rw [hsum, Real.sqrt_one]
  unfold orOne
  norm_num

theorem lexCat_consistent : TfidfConsistent lexCat := by
  intro d hd
  simp only [lexCat, List.mem_singleton] at hd
  subst hd
  exact lexCat_tfidfDocOf.symm

/-- C1 counterexample: on a consistent one-document store whose document
matches the query, `search("cat", k=0)` returns one result — not at most
`k = 0` — because the code slices `scored[:max(1, k)]`. -/
theorem C1_counterexample :
    TfidfConsistent lexCat ∧ (lexCat.search ("cat") 0).length = 1 := by
  refine ⟨lexCat_consistent, ?_⟩
  have hqp : lexCat.tfidf_query ("cat") = ([(("cat"), 1)], 1) := lexCat_tfidfDocOf
  have hcos : cosine_sim [(("cat"), (1 : ℝ))] 1 [(("cat"), (1 : ℝ))] 1 = 1 := by
    unfold cosine_sim
    rw [if_neg (by norm_num)]
    simp [lookupA]
  simp only [LexState.search, hqp]
  have hdocs : lexCat.docs = [catDoc] := rfl
  rw [hdocs]
  simp only [List.map_cons, List.map_nil]
  rw [show catDoc.tfidf = [(("cat"), (1 : ℝ))] from rfl,
    show catDoc.length = (1 : ℝ) from rfl, hcos]
  rw [show List.filter (fun p => decide (0 < p.1)) [((1 : ℝ), catDoc)] =
    [((1 : ℝ), catDoc)] from by
      simp [List.filter_cons, (by norm_num : (0 : ℝ) < 1)]]
  rw [List.mergeSort_singleton]
  rw [show ((max 1 (0 : ℤ)).toNat) = 1 from by decide]
  simp

/-! ### Claim C2 -/

theorem searchF_empty_docs (s : FaissState) (h : s.docs = []) (q : String) (k : ℤ) :
    s.searchF q k = (.ok [], s) := by
  simp [FaissState.searchF, h]

theorem searchF_fst_congr (a b : FaissState) (hc : a.client = b.client)
    (hd : a.docs = b.docs) (hn : a.index.isNone = b.index.isNone)
    (hi : a.index.getD [] = b.index.getD []) (q : String) (k : ℤ) :
    (a.searchF q k).1 = (b.searchF q k).1 := by
  unfold FaissState.searchF
  rw [hc, hd, hn, hi]
  split
  · rfl
  · dsimp only
    split
    · rfl
    · split <;> rfl

/-- C2: persisting either backend and constructing a fresh store over the
same on-disk files restores an identical `doc_count`/`count`, identical
stored documents (for the lexical backend the whole state, tfidf maps and
norms included), and identical search results for any fixed query.  The
FAISS hypotheses (`count = len(docs)`, index present whenever docs exist)
hold after every `add_texts`/`clear` sequence. -/
theorem C2_roundtrip (sl : LexState) (sf : FaissState) (legacy : Option LexPayload)
    (h1 : sf.count = sf.docs.length) (h2 : sf.index = none → sf.docs = []) :
    loadLex sl.path (saveLex sl) = sl ∧
    (∀ (q : String) (k : ℤ), (loadLex sl.path (saveLex sl)).search q k = sl.search q k) ∧
    ∃ sf', reloadFaiss sf legacy = .ok sf' ∧
      sf'.docs = sf.docs ∧ sf'.count = sf.count ∧
      ∀ (q : String) (k : ℤ), (sf'.searchF q k).1 = (sf.searchF q k).1 := by
  refine ⟨rfl, fun q k => rfl, ?_⟩
  refine ⟨faissLoadState sf.client (sf.saveF).disk (sf.index.getD [])
    { dim := sf.dim.getD 0, docs := sf.docs }, rfl, rfl, h1.symm, ?_⟩
  intro q k
  by_cases hd0 : sf.docs = []
  · have ha : (faissLoadState sf.client (sf.saveF).disk (sf.index.getD [])
        { dim := sf.dim.getD 0, docs := sf.docs }).docs = [] := hd0
    rw [searchF_empty_docs _ ha, searchF_empty_docs _ hd0]
  · obtain ⟨rows, hrows⟩ : ∃ r, sf.index = some r := by
      cases hsi : sf.index with
      | none => exact absurd (h2 hsi) hd0
      | some r => exact ⟨r, rfl⟩
    exact searchF_fst_congr (faissLoadState sf.client (sf.saveF).disk (sf.index.getD [])
      { dim := sf.dim.getD 0, docs := sf.docs }) sf rfl rfl
      (by rw [hrows]; rfl) (by rw [hrows]; rfl) q k

/-- Witness for C2 at an empty lexical store and an empty FAISS store. -/
theorem C2_roundtrip_witness :
    emptyFaiss.count = emptyFaiss.docs.length ∧
    loadLex (emptyLex ("kb.json")).path (saveLex (emptyLex ("kb.json"))) =
      emptyLex ("kb.json") :=
  ⟨rfl, (C2_roundtrip (emptyLex ("kb.json")) emptyFaiss none rfl (fun _ => rfl)).1⟩

/-! ### Claim C5 -/

theorem ensure_index_docs (s : FaissState) : (s.ensure_index).docs = s.docs := by
  unfold FaissState.ensure_index
  cases s.index <;> rfl

theorem ensure_index_disk (s : FaissState) : (s.ensure_index).disk = s.disk := by
  unfold FaissState.ensure_index
  cases s.index <;> rfl

theorem ensure_index_client (s : FaissState) : (s.ensure_index).client = s.client := by
  unfold FaissState.ensure_index
  cases s.index <;> rfl

theorem add_texts_no_client (s : FaissState) (hcl : s.client = none)
    (texts : List String) (metas : Option (List (List (String × Json))))
    (hne : texts ≠ []) :
    s.add_texts texts metas = (.error embedErrMsg, s.ensure_index) := by
  unfold FaissState.add_texts
  rw [if_neg (by simpa using hne)]
  dsimp only
  split
  · rfl
  · rename_i c hc2
    rw [ensure_index_client, hcl] at hc2
    exact absurd hc2 (by simp)

theorem searchF_no_client (s : FaissState) (hcl : s.client = none) (q : String) (k : ℤ)
    (hd : s.docs ≠ []) (hi : s.index ≠ none) (hq : pyStrip q ≠ "") :
    s.searchF q k = (.error embedErrMsg, s) := by
  unfold FaissState.searchF
  rw [if_neg (by simp [hd, Option.isNone_iff_eq_none, hi])]
  dsimp only
  rw [if_neg hq]
  split
  · rfl
  · rename_i c hc2
    rw [hcl] at hc2
    exact absurd hc2 (by simp)

/-- C5: on a `FaissVectorStore` whose embedding client is not configured,
`add_texts` with a non-empty text list and `search` with a non-stripped-
empty query on a non-empty store both raise the `RuntimeError` whose exact
message contains the marker `"client not configured"` that the selector
layer inspects, and the failed call leaves the document list and the
on-disk files unchanged (`add_texts` only initialises the in-memory
index before raising; `search` mutates nothing). -/
theorem C5_embed_unavailable (s : FaissState) (hcl : s.client = none) :
    (∀ (texts : List String) (metas : Option (List (List (String × Json)))),
      texts ≠ [] →
      s.add_texts texts metas = (.error embedErrMsg, s.ensure_index) ∧
      (s.ensure_index).docs = s.docs ∧ (s.ensure_index).disk = s.disk) ∧
    (∀ (q : String) (k : ℤ), s.docs ≠ [] → s.index ≠ none → pyStrip q ≠ "" →
      s.searchF q k = (.error embedErrMsg, s)) ∧
    (∃ a b, embedErrMsg = a ++ ("client not configured") ++ b) := by
  refine ⟨?_, ?_, ⟨("OpenAI "), (" for embeddings"), rfl⟩⟩
  · intro texts metas hne
    exact ⟨add_texts_no_client s hcl texts metas hne, ensure_index_docs s,
      ensure_index_disk s⟩
  · intro q k hd hi hq
    exact searchF_no_client s hcl q k hd hi hq

/-- Witness for C5 at concrete stores: an `add_texts` on the fresh
client-less store and a `search` on a one-document client-less store. -/
theorem C5_embed_unavailable_witness :
    emptyFaiss.client = none ∧
    faissNoClient.client = none ∧
    emptyFaiss.add_texts [("x")] none = (.error embedErrMsg, emptyFaiss.ensure_index) ∧
    faissNoClient.searchF ("hello") 5 = (.error embedErrMsg, faissNoClient) :=
  ⟨rfl, rfl,
   ((C5_embed_unavailable emptyFaiss rfl).1 [("x")] none (by simp)).1,
   (C5_embed_unavailable faissNoClient rfl).2.1 ("hello") 5 (by simp [faissNoClient])
     (by simp [faissNoClient]) (by decide)⟩

/-! ### Claim C6 -/

/-- C6: `FaissVectorStore.search` returns `[]` without raising on an empty
store for every query — even with no embedding client — and returns `[]`
on every store for a query that strips to empty (the guards run before
`_embed`); and every row the search does return is bounds-checked: it is
`docs[i]` for some in-range `i` (out-of-range row ids are skipped). -/
theorem C6_search_guards :
    (∀ (s : FaissState) (q : String) (k : ℤ), s.docs = [] →
      s.searchF q k = (.ok [], s)) ∧
    (∀ (s : FaissState) (q : String) (k : ℤ), pyStrip q = "" →
      s.searchF q k = (.ok [], s)) ∧
    (∀ (docs : List FaissDoc) (pairs : List (ℝ × Int)),
      ∀ r ∈ faissRowsToResults docs pairs,
        ∃ (i : Nat) (h : i < docs.length) (score : ℝ),
          r = ⟨(docs.get ⟨i, h⟩).id, (docs.get ⟨i, h⟩).text,
               (docs.get ⟨i, h⟩).metadata, score⟩) := by
  refine ⟨fun s q k hd => searchF_empty_docs s hd q k, ?_, ?_⟩
  · intro s q k hq
    unfold FaissState.searchF
    split
    · rfl
    · dsimp only
      rw [if_pos hq]
  · intro docs pairs r hr
    unfold faissRowsToResults at hr
    rw [List.mem_filterMap] at hr
    obtain ⟨p, _, he⟩ := hr
    split at he
    · rename_i hcond
      refine ⟨p.2.toNat, hcond.2, p.1, ?_⟩
      exact (Option.some_injective _ he).symm
    · exact absurd he (by simp)

/-- Witness for C6: searching the fresh (client-less) empty store. -/
theorem C6_search_guards_witness :
    emptyFaiss.docs = [] ∧
    emptyFaiss.searchF ("hello") 5 = (.ok [], emptyFaiss) :=
  ⟨rfl, C6_search_guards.1 emptyFaiss ("hello") 5 rfl⟩

/-! ### Claim C7 -/

theorem ensure_index_getD (s : FaissState) :
    (s.ensure_index).index.getD [] = s.index.getD [] := by
  cases hsi : s.index with
  | none => simp [FaissState.ensure_index, hsi]
  | some v => simp [FaissState.ensure_index, hsi]

theorem ensure_index_count (s : FaissState) : (s.ensure_index).count = s.count := by
  unfold FaissState.ensure_index
  cases s.index <;> rfl

theorem add_texts_some_client_proj (s : FaissState) (c : EmbedClient)
    (hcl : s.client = some c) (texts : List String)
    (metas : Option (List (List (String × Json)))) (hne : texts ≠ []) :
    (s.add_texts texts metas).2.docs.length =
      s.docs.length +
        (faiss_add_loop c s.count texts (metas.getD (texts.map fun _ => [])) 0).1.length ∧
    ((s.add_texts texts metas).2.index.getD []).length =
      (s.index.getD []).length +
        (faiss_add_loop c s.count texts (metas.getD (texts.map fun _ => [])) 0).2.1.length ∧
    (s.add_texts texts metas).1 =
      .ok (faiss_add_loop c s.count texts (metas.getD (texts.map fun _ => [])) 0).2.2 := by
  unfold FaissState.add_texts
  rw [if_neg (by simpa using hne)]
  dsimp only
  split
  · rename_i hc2
    rw [ensure_index_client, hcl] at hc2
    exact absurd hc2 (by simp)
  · rename_i c' hc2
    rw [ensure_index_client, hcl] at hc2
    have hcc : c' = c := by
      injection hc2 with h
      exact h.symm
    subst hcc
    rw [ensure_index_count]
    refine ⟨?_, ?_, rfl⟩
    · simp [FaissState.saveF, ensure_index_docs, List.length_append]
    · simp [FaissState.saveF, ensure_index_getD, List.length_append]

/-- C7 is violated by the code (a code bug): on an empty store with a
configured client, `add_texts(["a","b"], metadatas=[{}])` embeds and
inserts two rows into the index but appends only one document (the `zip`
truncation drops the surplus text from `docs` while `self._index.add(vecs)`
still receives every batch vector), and the call returns 2 — afterwards
the index holds 2 rows while `len(docs) = 1`, so the claimed invariant
"row i ↔ docs[i]" fails in this reachable state. -/
theorem C7_rows_docs_mismatch :
    (faissCE.add_texts [("a"), ("b")] (some [[]])).2.docs.length = 1 ∧
    ((faissCE.add_texts [("a"), ("b")] (some [[]])).2.index.getD []).length = 2 ∧
    (faissCE.add_texts [("a"), ("b")] (some [[]])).1 = .ok 2 := by
  have e1 : ((["b"] : List String).take 63) = ["b"] := rfl
  have e2 : ((["b"] : List String).drop 63) = [] := rfl
  have e3 : (([[]] : List (List (String × Json))).take 64) = [[]] := rfl
  have e4 : (([[]] : List (List (String × Json))).drop 64) = [] := rfl
  have hproj := add_texts_some_client_proj faissCE oneClient rfl
    [("a"), ("b")] (some [[]]) (by simp)
  simp only [Option.getD_some] at hproj
  have hlen1 : (faiss_add_loop oneClient faissCE.count [("a"), ("b")] [[]] 0).1.length = 1 := by
    simp only [faiss_add_loop, e1, e2, e3, e4]
    simp [List.length_zip]
  have hlen2 : (faiss_add_loop oneClient faissCE.count [("a"), ("b")] [[]] 0).2.1.length = 2 := by
    simp only [faiss_add_loop, e1, e2, e3, e4]
    simp
  have hadded : (faiss_add_loop oneClient faissCE.count [("a"), ("b")] [[]] 0).2.2 = 2 := by
    simp only [faiss_add_loop, e1, e2, e3, e4]
    simp
  refine ⟨?_, ?_, ?_⟩
  · rw [hproj.1, hlen1]
    rfl
  · rw [hproj.2.1, hlen2]
    rfl
  · rw [hproj.2.2, hadded]

/-! ### Claim C4 -/

theorem lexical_fallback_path (env : Env) : (lexical_fallback env).path = env.anchor := by
  unfold lexical_fallback
  cases env.legacy <;> rfl

/-- C4 (amended): whenever Vector Store construction raises, the selector
returns the Lexical Store rooted at the same anchor path — and with no
embedding credential, construction does raise exactly when a non-empty
legacy corpus file must be migrated (the migration `add_texts` hits
`_embed` with no client inside the constructor).  When construction
succeeds instead, the selector hands back the Vector Store itself; an
Unavailable error on that store's first `add_texts`/`search` is *not*
caught at the selector (see the counterexample). -/
theorem C4_selector_fallback (env : Env) :
    (∀ e, construct_vector_store env = .error e →
      get_work_history_store env = .lexical (lexical_fallback env) ∧
      (lexical_fallback env).path = env.anchor) ∧
    (env.client = none →
      (env.faissDisk.indexFile = none ∨ env.faissDisk.metaFile = none) →
      ∀ p, env.legacy = some p → p.docs ≠ [] →
        construct_vector_store env = .error embedErrMsg ∧
        get_work_history_store env = .lexical (loadLex env.anchor p)) := by
  constructor
  · intro e he
    refine ⟨?_, lexical_fallback_path env⟩
    unfold get_work_history_store
    split
    · rename_i s hs
      rw [he] at hs
      exact absurd hs (by simp)
    · rfl
  · intro hcl hdisk p hleg hne
    have htexts : (p.docs.map (fun d => d.text)) ≠ [] := by
      simpa using hne
    have hbase : ∀ (base : FaissState), base.client = none →
        base.add_texts (p.docs.map (fun d => d.text))
          (some (p.docs.map (fun d => d.metadata))) =
          (.error embedErrMsg, base.ensure_index) :=
      fun base hb => add_texts_no_client base hb _ _ htexts
    have hcon : construct_vector_store env = .error embedErrMsg := by
      unfold construct_vector_store load_or_init
      rcases hdisk with h | h
      · rw [h]
        dsimp only
        rw [hleg]
        dsimp only
        rw [if_neg (by simpa using htexts)]
        rw [hbase _ hcl]
      · cases hif : env.faissDisk.indexFile with
        | none =>
          dsimp only
          rw [hleg]
          dsimp only
          rw [if_neg (by simpa using htexts)]
          rw [hbase _ hcl]
        | some rows =>
          rw [h]
          dsimp only
          rw [hleg]
          dsimp only
          rw [if_neg (by simpa using htexts)]
          rw [hbase _ hcl]
    refine ⟨hcon, ?_⟩
    unfold get_work_history_store
    split
    · rename_i s hs
      rw [hcon] at hs
      exact absurd hs (by simp)
    · unfold lexical_fallback
      rw [hleg]

/-- Witness for C4 at a concrete environment: no credential, fresh FAISS
files, one legacy document — construction fails and the selector falls
back to the lexical store at the anchor. -/
theorem C4_selector_fallback_witness :
    envLeg.client = none ∧
    envLeg.faissDisk.indexFile = none ∧
    envLeg.legacy = some legPayload ∧
    legPayload.docs ≠ [] ∧
    construct_vector_store envLeg = .error embedErrMsg ∧
    get_work_history_store envLeg = .lexical (loadLex envLeg.anchor legPayload) :=
  ⟨rfl, rfl, rfl, by simp [legPayload],
   ((C4_selector_fallback envLeg).2 rfl (Or.inl rfl) legPayload rfl
     (by simp [legPayload])).1,
   ((C4_selector_fallback envLeg).2 rfl (Or.inl rfl) legPayload rfl
     (by simp [legPayload])).2⟩

/-- C4 counterexample: with no credential but also no legacy corpus to
migrate, construction *succeeds*, so the selector returns the Vector
Store itself — not a working Lexical Store — and that store's first
`add_texts` raises the Unavailable error uncaught by the selector. -/
theorem C4_counterexample :
    get_work_history_store env0 = .vector emptyFaiss ∧
    emptyFaiss.add_texts [("x")] none = (.error embedErrMsg, emptyFaiss.ensure_index) ∧
    (∃ a b, embedErrMsg = a ++ ("client not configured") ++ b) :=
  ⟨rfl, add_texts_no_client emptyFaiss rfl [("x")] none (by simp),
   ⟨("OpenAI "), (" for embeddings"), rfl⟩⟩

/-! ### Claim C8 -/

/-- C8: in the `.jsonl` branch of `import_path`, each non-empty line is
handled independently and a malformed line (one on which `json.loads`
raises) is skipped without aborting the file or affecting any other line:
folding the per-line step over a line list containing a malformed line
gives exactly the fold over the list with that line removed.  In the
concrete scenario — one `.txt` file with two blank-line-separated
paragraphs plus one `.jsonl` file with two valid lines and one malformed
line — `import_path` adds exactly 4 chunks (2 + 2) and the malformed line
contributes 0. -/
theorem C8_jsonl_malformed_skipped :
    (∀ (pathStr : String) (st : LexState × Nat) (l₁ l₂ : List (Option Json)),
      (l₁ ++ none :: l₂).foldl (lexJsonlLine pathStr) st =
        (l₁ ++ l₂).foldl (lexJsonlLine pathStr) st) ∧
    (lexImportPath (emptyLex ("kb.json")) scenarioFiles).2 = 4 ∧
    ((lexImportPath (emptyLex ("kb.json")) scenarioFiles).1).doc_count = 4 := by
  refine ⟨?_, ?_, ?_⟩
  · intro pathStr st l₁ l₂
    rw [List.foldl_append, List.foldl_append, List.foldl_cons]
    rfl
  · decide
  · decide

/-! ### Claim C9 -/

/-- C9: for a `.txt`/`.md` file, `_read_text_document` splits the file
text on blank-line (`"\n\n"`) boundaries, strips each piece, and drops
the empty ones — the produced chunk list equals the spec's
"trim each piece, then drop the empties" formulation — with exactly one
metadata dict per chunk, each carrying `source` set to the originating
path, and every produced chunk non-empty. -/
theorem C9_read_text_document (pathStr content : String) :
    (read_text_document pathStr content).1 =
      ((pySplitNN content).map pyStrip).filter (fun c => !(c == "")) ∧
    (read_text_document pathStr content).2.length =
      (read_text_document pathStr content).1.length ∧
    (∀ m ∈ (read_text_document pathStr content).2,
      lookupA m ("source") = some (Json.str pathStr)) ∧
    (∀ ch ∈ (read_text_document pathStr content).1, ch ≠ ("")) := by
  refine ⟨?_, ?_, ?_, ?_⟩
  · unfold read_text_document
    dsimp only
    rw [List.filter_map]
    rfl
  · simp [read_text_document]
  · intro m hm
    unfold read_text_document at hm
    dsimp only at hm
    rw [List.mem_map] at hm
    obtain ⟨c, _, rfl⟩ := hm
    rfl
  · intro ch hch
    unfold read_text_document at hch
    dsimp only at hch
    rw [List.mem_map] at hch
    obtain ⟨c, hc, rfl⟩ := hch
    have h := List.of_mem_filter hc
    simpa using h

/-- Witness for C9 at a concrete two-paragraph file. -/
theorem C9_read_text_document_witness :
    (read_text_document ("kb/a.txt") ("A\n\nB")).2.length =
      (read_text_document ("kb/a.txt") ("A\n\nB")).1.length :=
  (C9_read_text_document ("kb/a.txt") ("A\n\nB")).2.1
